import Mathlib

/-!
Verification development for the ai-suite resilient request-dispatch layer:
the retrying dispatcher (`fetchWithRetry`), the SSE stream normalizers, the
rate-limit tracker (`parseRateLimitHeaders`), the HuggingFace→Featherless
model rewrite, and the failover orchestrator, shallowly embedded from the
TypeScript source.  Strings are modelled as `List Char`.
-/

namespace AISuite

/-- Strings of the embedded program, modelled as lists of characters. -/
abbrev Str := List Char

/-- JS `hay.includes(needle)`: case-sensitive substring test. -/
def containsSub : Str → Str → Bool
  | [], needle => needle.isEmpty
  | c :: t, needle => needle.isPrefixOf (c :: t) || containsSub t needle

/-- ASCII lower-casing of one character (model of JS `toLowerCase` on ASCII). -/
def toLowerC (c : Char) : Char :=
  if 'A' ≤ c ∧ c ≤ 'Z' then Char.ofNat (c.toNat + 32) else c

/-- ASCII lower-casing of a string. -/
def lowerStr (s : Str) : Str := s.map toLowerC

/-- Leading decimal digits of a string (helper for the `parseInt` model). -/
def leadDigits : Str → Str
  | [] => []
  | c :: t => if c.isDigit then c :: leadDigits t else []

/-- Numeric value of a digit string. -/
def digitsToNat (l : Str) : Nat :=
  l.foldl (fun acc c => acc * 10 + (c.toNat - 48)) 0

/-- Model of JS `parseInt` restricted to what the dispatcher feeds it:
the value of the leading decimal digits (0 when there are none; a NaN
result makes the subsequent `setTimeout` fire immediately, i.e. delay 0). -/
def jsParseInt (s : Str) : Nat := digitsToNat (leadDigits s)

-- ============================================
-- Retrying dispatcher (src/unnamed/part_001, fetchWithRetry)
-- ============================================

/-- The five provider identifiers of the static `PROVIDERS` table. -/
inductive ProviderName
  | openrouter
  | huggingface
  | featherless
  | venice
  | together
deriving DecidableEq, Repr

/-- Model of one upstream HTTP response as observed by `fetchWithRetry`:
its status code, the result of `JSON.parse(body).message` when the body is
JSON with a string `message` field (`none` when parsing throws or the field
is absent, matching the `catch` / optional-chaining behaviour), and the
`Retry-After` header when present. -/
structure UpstreamResponse where
  status : Nat
  jsonMessage : Option Str
  retryAfter : Option Str
deriving DecidableEq, Repr

/-- The constant `RETRY_STATUS_CODES = [429, 500, 502, 503, 504]`. -/
def RETRY_STATUS_CODES : List Nat := [429, 500, 502, 503, 504]

/-- The constant `MAX_RETRIES = 3`. -/
def MAX_RETRIES : Nat := 3

/-- The Featherless cold-start body test:
`error.message?.includes('Cold') || error.message?.includes('Not Ready')`.
JS `includes` is case-sensitive. -/
def isColdMsg (m : Str) : Bool :=
  containsSub m "Cold".data || containsSub m "Not Ready".data

/-- One run of `fetchWithRetry`, structurally recursive on a fuel argument.
`resp k` is the response received by the fetch issued with attempt counter
`k`; `rand k` models the `Math.random()` draw of that attempt.  The result
is the response finally returned together with the list of `sleep` delays
(in ms, exact rationals) performed before each retry, in order.  The fuel
is only a bound on the recursion depth: every retry branch requires
`attempt < 5` or `attempt < 3`, so with the entry fuel of
`fetchRun` the fuel never runs out (see `fetchRun_fuel_stable`). -/
def fetchRunAux (resp : Nat → UpstreamResponse) (rand : Nat → ℚ)
    (provider : ProviderName) : Nat → Nat → UpstreamResponse × List ℚ
  | 0, attempt => (resp attempt, [])
  | fuel + 1, attempt =>
    let r := resp attempt
    -- Handle Featherless cold starts (returns 400 with specific message)
    if provider = .featherless ∧ r.status = 400 then
      match r.jsonMessage with
      | some m =>
        if isColdMsg m ∧ attempt < 5 then
          let delay : ℚ := min 30000 (5000 * (3/2) ^ attempt)
          let rest := fetchRunAux resp rand provider fuel (attempt + 1)
          (rest.1, delay :: rest.2)
        else (r, [])
      | none => (r, [])
    -- Handle HuggingFace cold starts (502)
    else if provider = .huggingface ∧ r.status = 502 ∧ attempt < MAX_RETRIES then
      let delay : ℚ := 5000 * 2 ^ attempt
      let rest := fetchRunAux resp rand provider fuel (attempt + 1)
      (rest.1, delay :: rest.2)
    -- Standard retry logic
    else if r.status ∈ RETRY_STATUS_CODES ∧ attempt < MAX_RETRIES then
      let delay : ℚ :=
        match r.retryAfter with
        | some s => (jsParseInt s : ℚ) * 1000
        | none => min (1000 * 2 ^ attempt * (1/2 + rand attempt)) 30000
      let rest := fetchRunAux resp rand provider fuel (attempt + 1)
      (rest.1, delay :: rest.2)
    else (r, [])

/-- The run of `fetchWithRetry(url, options, provider, attempt)` as a function of the
attempt counter; `6 - attempt` fuel suffices because every retry branch
requires `attempt < 5`. -/
def fetchRun (resp : Nat → UpstreamResponse) (rand : Nat → ℚ)
    (provider : ProviderName) (attempt : Nat) : UpstreamResponse × List ℚ :=
  fetchRunAux resp rand provider (6 - attempt) attempt

-- Step lemmas for `fetchRun`, mirroring the four exits of `fetchWithRetry`.

/-- At attempt 5 or later no retry guard can fire: the response is returned. -/
theorem fetchRunAux_terminal (resp : Nat → UpstreamResponse) (rand : Nat → ℚ)
    (p : ProviderName) (fuel a : Nat) (ha : 5 ≤ a) :
    fetchRunAux resp rand p fuel a = (resp a, []) := by
  cases fuel with
  | zero => rfl
  | succ f =>
    simp only [fetchRunAux]
    by_cases hf : p = ProviderName.featherless ∧ (resp a).status = 400
    · rw [if_pos hf]
      split
      · rw [if_neg (by rintro ⟨-, h⟩; omega)]
      · rfl
    · rw [if_neg hf]
      rw [if_neg (by rintro ⟨-, -, h⟩; revert h; unfold MAX_RETRIES; omega)]
      rw [if_neg (by rintro ⟨-, h⟩; revert h; unfold MAX_RETRIES; omega)]

/-- At attempt 5 or later `fetchRun` returns the response unretried. -/
theorem fetchRun_terminal (resp : Nat → UpstreamResponse) (rand : Nat → ℚ)
    (p : ProviderName) (a : Nat) (ha : 5 ≤ a) :
    fetchRun resp rand p a = (resp a, []) :=
  fetchRunAux_terminal resp rand p _ a ha

/-- Featherless cold-start branch: a 400 whose message carries the
(case-sensitive) marker retries with delay `min(30000, 5000·1.5^attempt)`. -/
theorem fetchRun_cold_step (resp : Nat → UpstreamResponse) (rand : Nat → ℚ)
    (a : Nat) (m : Str) (hs : (resp a).status = 400)
    (hm : (resp a).jsonMessage = some m) (hc : isColdMsg m = true) (ha : a < 5) :
    fetchRun resp rand .featherless a =
      ((fetchRun resp rand .featherless (a + 1)).1,
        min 30000 (5000 * (3/2) ^ a) :: (fetchRun resp rand .featherless (a + 1)).2) := by
  unfold fetchRun
  have h6 : 6 - a = (6 - (a + 1)) + 1 := by omega
  rw [h6]
  simp only [fetchRunAux, true_and]
  rw [if_pos hs]
  simp only [hm]
  have hcc : (isColdMsg m = true) ∧ a < 5 := ⟨hc, ha⟩
  rw [if_pos hcc]

/-- Featherless 400 without the case-sensitive marker (or with a non-JSON or
message-less body, or with the 5-attempt budget exhausted) is returned as is:
the branch never falls through to the generic retry logic. -/
theorem fetchRun_featherless400_stop (resp : Nat → UpstreamResponse) (rand : Nat → ℚ)
    (a : Nat) (hs : (resp a).status = 400)
    (hstop : ∀ m, (resp a).jsonMessage = some m → ¬(isColdMsg m = true ∧ a < 5)) :
    fetchRun resp rand .featherless a = (resp a, []) := by
  unfold fetchRun
  cases h6 : 6 - a with
  | zero => rfl
  | succ f =>
    simp only [fetchRunAux, true_and]
    rw [if_pos hs]
    split
    · rename_i m' hm'
      rw [if_neg (hstop m' hm')]
    · rfl

/-- HuggingFace cold-start branch: any 502 with `attempt < 3` retries with
the uncapped delay `5000·2^attempt` (no body inspection). -/
theorem fetchRun_hf_step (resp : Nat → UpstreamResponse) (rand : Nat → ℚ)
    (a : Nat) (hs : (resp a).status = 502) (ha : a < 3) :
    fetchRun resp rand .huggingface a =
      ((fetchRun resp rand .huggingface (a + 1)).1,
        (5000 * 2 ^ a : ℚ) :: (fetchRun resp rand .huggingface (a + 1)).2) := by
  unfold fetchRun
  have h6 : 6 - a = (6 - (a + 1)) + 1 := by omega
  rw [h6]
  simp only [fetchRunAux, true_and]
  rw [if_neg (by rintro ⟨h, -⟩; cases h)]
  have hcc : (resp a).status = 502 ∧ a < MAX_RETRIES := ⟨hs, by unfold MAX_RETRIES; omega⟩
  rw [if_pos hcc]

/-- Standard retry branch: a status in `RETRY_STATUS_CODES` with
`attempt < 3`, outside the two cold-start branches, retries with the
`Retry-After`-or-jitter delay. -/
theorem fetchRun_generic_step (resp : Nat → UpstreamResponse) (rand : Nat → ℚ)
    (p : ProviderName) (a : Nat)
    (hnf : ¬(p = ProviderName.featherless ∧ (resp a).status = 400))
    (hnh : ¬(p = ProviderName.huggingface ∧ (resp a).status = 502 ∧ a < MAX_RETRIES))
    (hs : (resp a).status ∈ RETRY_STATUS_CODES) (ha : a < 3) :
    fetchRun resp rand p a =
      ((fetchRun resp rand p (a + 1)).1,
        (match (resp a).retryAfter with
          | some s => (jsParseInt s : ℚ) * 1000
          | none => min (1000 * 2 ^ a * (1/2 + rand a)) 30000) ::
          (fetchRun resp rand p (a + 1)).2) := by
  unfold fetchRun
  have h6 : 6 - a = (6 - (a + 1)) + 1 := by omega
  rw [h6]
  simp only [fetchRunAux]
  have hcc : (resp a).status ∈ RETRY_STATUS_CODES ∧ a < MAX_RETRIES :=
    ⟨hs, by unfold MAX_RETRIES; omega⟩
  rw [if_neg hnf, if_neg hnh, if_pos hcc]

/-- Terminal exit below attempt 5: when no retry branch applies the response
is returned unmodified with no further sleeps. -/
theorem fetchRun_stop (resp : Nat → UpstreamResponse) (rand : Nat → ℚ)
    (p : ProviderName) (a : Nat)
    (h1 : p = ProviderName.featherless → (resp a).status = 400 →
      ∀ m, (resp a).jsonMessage = some m → ¬(isColdMsg m = true ∧ a < 5))
    (h2 : ¬(p = ProviderName.huggingface ∧ (resp a).status = 502 ∧ a < MAX_RETRIES))
    (h3 : ¬((resp a).status ∈ RETRY_STATUS_CODES ∧ a < MAX_RETRIES)) :
    fetchRun resp rand p a = (resp a, []) := by
  unfold fetchRun
  cases h6 : 6 - a with
  | zero => rfl
  | succ f =>
    simp only [fetchRunAux]
    by_cases hf : p = ProviderName.featherless ∧ (resp a).status = 400
    · rw [if_pos hf]
      split
      · rename_i m' hm'
        rw [if_neg (h1 hf.1 hf.2 m' hm')]
      · rfl
    · rw [if_neg hf, if_neg h2, if_neg h3]

/-- Fuel beyond `6 - attempt` is irrelevant: the recursion never consumes
more, because every retry branch requires `attempt < 5` or `attempt < 3`. -/
theorem fetchRunAux_fuel_stable (resp : Nat → UpstreamResponse) (rand : Nat → ℚ)
    (p : ProviderName) :
    ∀ fuel a, 6 - a ≤ fuel →
      fetchRunAux resp rand p fuel a = fetchRunAux resp rand p (6 - a) a := by
  intro fuel
  induction fuel with
  | zero =>
    intro a ha
    have h0 : 6 - a = 0 := by omega
    rw [h0]
  | succ f ih =>
    intro a ha
    by_cases h5 : 5 ≤ a
    · rw [fetchRunAux_terminal resp rand p _ a h5, fetchRunAux_terminal resp rand p _ a h5]
    · have h6 : 6 - a = (5 - a) + 1 := by omega
      rw [h6]
      simp only [fetchRunAux]
      have hrec : fetchRunAux resp rand p f (a + 1) = fetchRunAux resp rand p (5 - a) (a + 1) := by
        have := ih (a + 1) (by omega)
        rwa [show 6 - (a + 1) = 5 - a from by omega] at this
      rw [hrec]

/-- The total request count of one `fetchWithRetry` run started at attempt
`a` is bounded: at most `5 - a` retries happen. -/
theorem fetchRun_retries_le (resp : Nat → UpstreamResponse) (rand : Nat → ℚ)
    (p : ProviderName) :
    ∀ n a, 5 - a ≤ n → (fetchRun resp rand p a).2.length ≤ 5 - a := by
  intro n
  induction n with
  | zero =>
    intro a ha
    have h5 : 5 ≤ a := by omega
    rw [fetchRun_terminal resp rand p a h5]
    simp
  | succ n ih =>
    intro a ha
    by_cases h5 : 5 ≤ a
    · rw [fetchRun_terminal resp rand p a h5]
      simp
    · by_cases hf : p = ProviderName.featherless ∧ (resp a).status = 400
      · cases hmo : (resp a).jsonMessage with
        | none =>
          rw [hf.1, fetchRun_featherless400_stop resp rand a hf.2
            (fun m hm => by rw [hmo] at hm; cases hm)]
          simp
        | some m =>
          by_cases hc : isColdMsg m = true
          · rw [hf.1, fetchRun_cold_step resp rand a m hf.2 hmo hc (by omega)]
            have := ih (a + 1) (by omega)
            rw [hf.1] at this
            simp only [List.length_cons]
            omega
          · rw [hf.1, fetchRun_featherless400_stop resp rand a hf.2
              (fun m' hm' => by rw [hmo] at hm'; cases hm'; rintro ⟨h, -⟩; exact hc h)]
            simp
      · by_cases hh : p = ProviderName.huggingface ∧ (resp a).status = 502 ∧ a < MAX_RETRIES
        · rw [hh.1, fetchRun_hf_step resp rand a hh.2.1 (by have := hh.2.2; revert this; unfold MAX_RETRIES; omega)]
          have := ih (a + 1) (by omega)
          rw [hh.1] at this
          simp only [List.length_cons]
          omega
        · by_cases hg : (resp a).status ∈ RETRY_STATUS_CODES ∧ a < MAX_RETRIES
          · rw [fetchRun_generic_step resp rand p a hf hh hg.1
              (by have := hg.2; revert this; unfold MAX_RETRIES; omega)]
            have := ih (a + 1) (by omega)
            simp only [List.length_cons]
            omega
          · rw [fetchRun_stop resp rand p a
              (fun hp hst m hm => absurd ⟨hp, hst⟩ hf) hh hg]
            simp

/-- C10 — `fetchWithRetry` terminates for every input and every sequence
of responses: the recursion is bounded (any fuel of at least 6 yields the
same run, so the source's unbounded recursion stabilizes), and one logical
dispatch issues at most 6 HTTP requests — the retry list has at most 5
entries, each retry branch being guarded by `attempt < 5` (featherless cold
path) or `attempt < 3` (all other retry paths). -/
theorem fetchWithRetry_terminates_bounded (resp : Nat → UpstreamResponse)
    (rand : Nat → ℚ) (p : ProviderName) :
    (fetchRun resp rand p 0).2.length + 1 ≤ 6 ∧
      ∀ k, fetchRunAux resp rand p (6 + k) 0 = fetchRun resp rand p 0 := by
  constructor
  · have := fetchRun_retries_le resp rand p 5 0 (by omega)
    omega
  · intro k
    unfold fetchRun
    exact fetchRunAux_fuel_stable resp rand p (6 + k) 0 (by omega)

/-- The featherless cold-start delay schedule of the source,
`min(30000, 5000 · 1.5^attempt)` for attempts 0..4; identical to the
schedule the claim asserts for both cold-start-prone providers. -/
def coldSchedule : List ℚ :=
  (List.range 5).map fun a => min 30000 (5000 * (3/2) ^ a)

/-- A response sequence: every request gets HTTP 502 with a cold-start
marker in the JSON body (the huggingface "not ready" case of claim C1). -/
def hfColdResp : Nat → UpstreamResponse :=
  fun _ => ⟨502, some "Model is Cold".data, none⟩

/-- A zero random source (the cold paths never consult it). -/
def rand0 : Nat → ℚ := fun _ => 0

/-- The cold-start schedule evaluated: the five delays are
5000, 7500, 11250, 16875, 25312.5 ms — all below the 30000 cap. -/
theorem coldSchedule_eq : coldSchedule = [5000, 7500, 11250, 16875, 50625/2] := by
  norm_num [coldSchedule, List.range_succ, min_def]

/-- C1 counterexample — for huggingface, a 502 carrying a cold-start
marker is retried only 3 times with delays `5000·2^attempt`
([5000, 10000, 20000]), not 5 times with `min(30000, 5000·1.5^attempt)`
as the claim asserts for every cold-start-prone provider. -/
theorem cold_retry_claim_false_for_hf :
    isColdMsg "Model is Cold".data = true ∧
    fetchRun hfColdResp rand0 .huggingface 0 =
      (⟨502, some "Model is Cold".data, none⟩, [5000, 10000, 20000]) ∧
    ([5000, 10000, 20000] : List ℚ) ≠ coldSchedule ∧
    ([5000, 10000, 20000] : List ℚ).length ≠ 5 := by
  refine ⟨by decide, ?_, ?_, by decide⟩
  · have h0 := fetchRun_hf_step hfColdResp rand0 0 rfl (by omega)
    have h1 := fetchRun_hf_step hfColdResp rand0 1 rfl (by omega)
    have h2 := fetchRun_hf_step hfColdResp rand0 2 rfl (by omega)
    have h3 := fetchRun_stop hfColdResp rand0 .huggingface 3
      (fun hp => by cases hp)
      (by rintro ⟨-, -, h⟩; revert h; unfold MAX_RETRIES; omega)
      (by rintro ⟨-, h⟩; revert h; unfold MAX_RETRIES; omega)
    rw [h0, h1, h2, h3]
    simp only [Prod.mk.injEq]
    refine ⟨rfl, ?_⟩
    norm_num
  · intro h
    have := congrArg List.length h
    simp [coldSchedule] at this

/-- C1 amended — the cold-start retry schedules are per-provider: a
featherless 400 whose body message carries the (case-sensitive) marker is
retried up to exactly 5 times with delay `min(30000, 5000·1.5^attempt)`,
a monotonically non-decreasing schedule; a huggingface 502 is retried up
to exactly 3 times with the uncapped delay `5000·2^attempt` and no body
inspection. -/
theorem cold_retry_schedules_amended (resp resp' : Nat → UpstreamResponse)
    (rand rand' : Nat → ℚ) :
    ((∀ k, k < 5 → (resp k).status = 400 ∧
        ∃ m, (resp k).jsonMessage = some m ∧ isColdMsg m = true) →
      fetchRun resp rand .featherless 0 = (resp 5, coldSchedule) ∧
        List.Chain' (· ≤ ·) coldSchedule)
    ∧ ((∀ k, k < 3 → (resp' k).status = 502) →
      fetchRun resp' rand' .huggingface 0 = (resp' 3, [5000, 10000, 20000])) := by
  constructor
  · intro hcold
    refine ⟨?_, by
      rw [coldSchedule_eq]
      simp only [List.chain'_cons, List.chain'_singleton, and_true]
      norm_num⟩
    have step : ∀ a, a < 5 →
        fetchRun resp rand .featherless a =
          ((fetchRun resp rand .featherless (a + 1)).1,
            min 30000 (5000 * (3/2) ^ a) :: (fetchRun resp rand .featherless (a + 1)).2) := by
      intro a ha
      obtain ⟨hs, m, hm, hc⟩ := hcold a ha
      exact fetchRun_cold_step resp rand a m hs hm hc ha
    rw [step 0 (by omega), step 1 (by omega), step 2 (by omega), step 3 (by omega),
      step 4 (by omega), fetchRun_terminal resp rand .featherless 5 (by omega)]
    rfl
  · intro h502
    have step : ∀ a, a < 3 →
        fetchRun resp' rand' .huggingface a =
          ((fetchRun resp' rand' .huggingface (a + 1)).1,
            (5000 * 2 ^ a : ℚ) :: (fetchRun resp' rand' .huggingface (a + 1)).2) := by
      intro a ha
      exact fetchRun_hf_step resp' rand' a (h502 a ha) ha
    have h3 := fetchRun_stop resp' rand' .huggingface 3
      (fun hp => by cases hp)
      (by rintro ⟨-, -, h⟩; revert h; unfold MAX_RETRIES; omega)
      (by rintro ⟨-, h⟩; revert h; unfold MAX_RETRIES; omega)
    rw [step 0 (by omega), step 1 (by omega), step 2 (by omega), h3]
    norm_num

/-- Fixed featherless cold responses for the C1 witness. -/
def fColdResp : Nat → UpstreamResponse := fun _ => ⟨400, some "Cold".data, none⟩

/-- Fixed huggingface 502 responses (no message) for the C1 witness. -/
def hf502Resp : Nat → UpstreamResponse := fun _ => ⟨502, none, none⟩

/-- Witness for `cold_retry_schedules_amended` at concrete inputs. -/
theorem cold_retry_schedules_amended_witness :
    (fetchRun fColdResp rand0 .featherless 0 = (fColdResp 5, coldSchedule) ∧
      List.Chain' (· ≤ ·) coldSchedule)
    ∧ fetchRun hf502Resp rand0 .huggingface 0 = (hf502Resp 3, [5000, 10000, 20000]) :=
  ⟨(cold_retry_schedules_amended fColdResp hf502Resp rand0 rand0).1
      (fun k _ => ⟨rfl, "Cold".data, rfl, by decide⟩),
    (cold_retry_schedules_amended fColdResp hf502Resp rand0 rand0).2
      (fun k _ => rfl)⟩

/-- The featherless cold classification `fetchWithRetry` would retry on,
as a proposition about one response. -/
def fcoldProp (p : ProviderName) (r : UpstreamResponse) : Prop :=
  p = ProviderName.featherless ∧ r.status = 400 ∧
    ∃ m, r.jsonMessage = some m ∧ isColdMsg m = true

/-- C2 — for every provider, when the first three responses have a
status in the generic retryable set the dispatcher retries exactly 3 times
and returns the fourth (last observed) response unmodified; and with the
featherless cold classification never applying, no run retries more than
3 times. -/
theorem generic_retry_three_then_last (resp : Nat → UpstreamResponse)
    (rand : Nat → ℚ) (p : ProviderName) :
    ((∀ k, k < 3 → (resp k).status ∈ RETRY_STATUS_CODES) →
      ¬fcoldProp p (resp 3) →
      (fetchRun resp rand p 0).1 = resp 3 ∧ (fetchRun resp rand p 0).2.length = 3)
    ∧ ((∀ k, ¬fcoldProp p (resp k)) →
      (fetchRun resp rand p 0).2.length ≤ 3) := by
  have status_ne_400 : ∀ s, s ∈ RETRY_STATUS_CODES → s ≠ 400 := by
    intro s hs
    simp only [RETRY_STATUS_CODES, List.mem_cons, List.not_mem_nil, or_false] at hs
    omega
  have step_any : ∀ a, a < 3 → (resp a).status ∈ RETRY_STATUS_CODES →
      ∃ d, fetchRun resp rand p a =
        ((fetchRun resp rand p (a + 1)).1, d :: (fetchRun resp rand p (a + 1)).2) := by
    intro a ha hs
    by_cases hh : p = ProviderName.huggingface ∧ (resp a).status = 502
    · obtain ⟨hp, hs2⟩ := hh
      subst hp
      exact ⟨_, fetchRun_hf_step resp rand a hs2 ha⟩
    · exact ⟨_, fetchRun_generic_step resp rand p a
        (by rintro ⟨-, h400⟩; exact status_ne_400 _ hs h400)
        (by rintro ⟨h1, h2, -⟩; exact hh ⟨h1, h2⟩)
        hs ha⟩
  constructor
  · intro hgen hnc
    obtain ⟨d0, h0⟩ := step_any 0 (by omega) (hgen 0 (by omega))
    obtain ⟨d1, h1⟩ := step_any 1 (by omega) (hgen 1 (by omega))
    obtain ⟨d2, h2⟩ := step_any 2 (by omega) (hgen 2 (by omega))
    have h3 := fetchRun_stop resp rand p 3
      (fun hp hst m hm => by
        rintro ⟨hc, -⟩
        exact hnc ⟨hp, hst, m, hm, hc⟩)
      (by rintro ⟨-, -, h⟩; revert h; unfold MAX_RETRIES; omega)
      (by rintro ⟨-, h⟩; revert h; unfold MAX_RETRIES; omega)
    rw [h0, h1, h2, h3]
    exact ⟨rfl, rfl⟩
  · intro hnc
    suffices h : ∀ n a, 3 - a ≤ n → (fetchRun resp rand p a).2.length ≤ 3 - a by
      have := h 3 0 (by omega)
      omega
    intro n
    induction n with
    | zero =>
      intro a ha
      have h3 : 3 ≤ a := by omega
      rw [fetchRun_stop resp rand p a
        (fun hp hst m hm => by
          rintro ⟨hc, -⟩
          exact hnc a ⟨hp, hst, m, hm, hc⟩)
        (by rintro ⟨-, -, h⟩; revert h; unfold MAX_RETRIES; omega)
        (by rintro ⟨-, h⟩; revert h; unfold MAX_RETRIES; omega)]
      simp
    | succ n ih =>
      intro a ha
      by_cases h3 : 3 ≤ a
      · rw [fetchRun_stop resp rand p a
          (fun hp hst m hm => by
            rintro ⟨hc, -⟩
            exact hnc a ⟨hp, hst, m, hm, hc⟩)
          (by rintro ⟨-, -, h⟩; revert h; unfold MAX_RETRIES; omega)
          (by rintro ⟨-, h⟩; revert h; unfold MAX_RETRIES; omega)]
        simp
      · by_cases hf : p = ProviderName.featherless ∧ (resp a).status = 400
        · rw [hf.1, fetchRun_featherless400_stop resp rand a hf.2
            (fun m hm => by
              rintro ⟨hc, -⟩
              exact hnc a ⟨hf.1, hf.2, m, hm, hc⟩)]
          simp
        · by_cases hh : p = ProviderName.huggingface ∧ (resp a).status = 502 ∧ a < MAX_RETRIES
          · rw [hh.1, fetchRun_hf_step resp rand a hh.2.1
              (by have := hh.2.2; revert this; unfold MAX_RETRIES; omega)]
            have := ih (a + 1) (by omega)
            rw [hh.1] at this
            simp only [List.length_cons]
            omega
          · by_cases hg : (resp a).status ∈ RETRY_STATUS_CODES ∧ a < MAX_RETRIES
            · rw [fetchRun_generic_step resp rand p a hf hh hg.1
                (by have := hg.2; revert this; unfold MAX_RETRIES; omega)]
              have := ih (a + 1) (by omega)
              simp only [List.length_cons]
              omega
            · rw [fetchRun_stop resp rand p a
                (fun hp hst m hm => absurd ⟨hp, hst⟩ hf) hh hg]
              simp

/-- Constant 500-status responses for the C2 witness. -/
def err500Resp : Nat → UpstreamResponse := fun _ => ⟨500, none, none⟩

/-- Witness for `generic_retry_three_then_last` at concrete inputs. -/
theorem generic_retry_three_then_last_witness :
    ((fetchRun err500Resp rand0 .openrouter 0).1 = err500Resp 3 ∧
      (fetchRun err500Resp rand0 .openrouter 0).2.length = 3) ∧
    (fetchRun err500Resp rand0 .openrouter 0).2.length ≤ 3 :=
  ⟨(generic_retry_three_then_last err500Resp rand0 .openrouter).1
      (fun k _ => (by decide : (500 : Nat) ∈ RETRY_STATUS_CODES))
      (fun h => ProviderName.noConfusion h.1),
    (generic_retry_three_then_last err500Resp rand0 .openrouter).2
      (fun k h => ProviderName.noConfusion h.1)⟩

-- ============================================
-- C3: cold-start marker matching
-- ============================================

/-- The cold-start classification as the claim states it: a case-insensitive
substring match against the loading terms.  (Follows the claim/spec wording,
for comparison with the source's `isColdMsg`.) -/
def specColdMarkerCI (m : Str) : Bool :=
  containsSub (lowerStr m) (lowerStr "Cold".data) ||
    containsSub (lowerStr m) (lowerStr "Not Ready".data)

/-- Constant featherless 400 responses whose message carries the marker only
in lower case. -/
def coldLowerResp : Nat → UpstreamResponse :=
  fun _ => ⟨400, some "model is cold".data, none⟩

/-- C3 counterexample — the body "model is cold" matches the cold-start
marker case-insensitively (as the claim requires), yet the source's
case-sensitive `includes('Cold')` test rejects it and the dispatcher
returns the featherless 400 without a single retry. -/
theorem cold_marker_not_case_insensitive :
    specColdMarkerCI "model is cold".data = true ∧
    isColdMsg "model is cold".data = false ∧
    fetchRun coldLowerResp rand0 .featherless 0 =
      (⟨400, some "model is cold".data, none⟩, []) := by
  refine ⟨by decide, by decide, ?_⟩
  exact fetchRun_featherless400_stop coldLowerResp rand0 0 rfl
    (fun m hm => by
      cases hm
      rintro ⟨hc, -⟩
      exact absurd hc (by decide))

/-- C3 amended — a featherless 400 response with a JSON string message
is classified retryable-cold (i.e. the dispatcher retries it) exactly when
the message contains 'Cold' or 'Not Ready' as a case-sensitive substring. -/
theorem cold_classification_case_sensitive (resp : Nat → UpstreamResponse)
    (rand : Nat → ℚ) (m : Str)
    (hs : (resp 0).status = 400) (hm : (resp 0).jsonMessage = some m) :
    (fetchRun resp rand .featherless 0).2 ≠ [] ↔ isColdMsg m = true := by
  constructor
  · intro hne
    by_contra hc
    have := fetchRun_featherless400_stop resp rand 0 hs
      (fun m' hm' => by
        rw [hm] at hm'
        cases hm'
        rintro ⟨hc', -⟩
        exact hc hc')
    rw [this] at hne
    exact hne rfl
  · intro hc
    rw [fetchRun_cold_step resp rand 0 m hs hm hc (by omega)]
    simp

/-- Constant featherless 400 responses with the case-sensitive marker for
the C3 witness. -/
def coldUpperResp : Nat → UpstreamResponse :=
  fun _ => ⟨400, some "Model is Cold".data, none⟩

/-- Witness for `cold_classification_case_sensitive` at a concrete input. -/
theorem cold_classification_case_sensitive_witness :
    isColdMsg "Model is Cold".data = true ∧
    ((fetchRun coldUpperResp rand0 .featherless 0).2 ≠ [] ↔
      isColdMsg "Model is Cold".data = true) :=
  ⟨by decide,
    cold_classification_case_sensitive coldUpperResp rand0 "Model is Cold".data rfl rfl⟩

-- ============================================
-- Stream normalizers
-- (src/frontend/src/lib/api.ts chatStream; src/src/providers/featherless.ts chatStream)
-- ============================================

/-- JS `s.split('\n')`: split into the newline-separated segments; an empty
string gives `[""]`, a trailing newline gives a trailing `""`. -/
def splitLines : Str → List Str
  | [] => [[]]
  | c :: t =>
    if c = '\n' then [] :: splitLines t
    else (c :: (splitLines t).headI) :: (splitLines t).tail

theorem splitLines_ne_nil : ∀ l : Str, splitLines l ≠ [] := by
  intro l
  cases l with
  | nil => simp [splitLines]
  | cons c t =>
    simp only [splitLines]
    split <;> simp

theorem getLast?_cons_ne_nil {α : Type} (a : α) (l : List α) (h : l ≠ []) :
    (a :: l).getLast? = l.getLast? := by
  cases l with
  | nil => exact absurd rfl h
  | cons b t => simp [List.getLast?_cons_cons]

/-- Splitting a concatenation: the complete lines of `x` are unchanged and
the trailing segment of `x` merges with the start of `y`. -/
theorem splitLines_append : ∀ x y : Str,
    splitLines (x ++ y) =
      (splitLines x).dropLast ++
        splitLines (((splitLines x).getLast?.getD []) ++ y) := by
  intro x
  induction x with
  | nil => intro y; simp [splitLines]
  | cons c t ih =>
    intro y
    rw [List.cons_append]
    by_cases hc : c = '\n'
    · subst hc
      simp only [splitLines, if_true]
      have hne := splitLines_ne_nil t
      rw [List.dropLast_cons_of_ne_nil hne, getLast?_cons_ne_nil _ _ hne,
        List.cons_append, ih y]
    · simp only [splitLines, if_neg hc]
      cases hL : splitLines t with
      | nil => exact absurd hL (splitLines_ne_nil t)
      | cons h r =>
        cases r with
        | nil =>
          have hM := ih y
          rw [hL] at hM
          simp only [List.headI_cons, List.tail_cons, List.dropLast_single,
            List.getLast?_singleton, Option.getD_some, List.nil_append] at hM ⊢
          rw [hM, List.cons_append]
          simp only [splitLines, if_neg hc]
        | cons r0 r1 =>
          have hrne : (r0 :: r1 : List Str) ≠ [] := by simp
          have hM := ih y
          rw [hL, List.dropLast_cons_of_ne_nil hrne, getLast?_cons_ne_nil _ _ hrne,
            List.cons_append] at hM
          simp only [List.headI_cons, List.tail_cons] at hM ⊢
          rw [hM, List.dropLast_cons_of_ne_nil hrne, getLast?_cons_ne_nil _ _ hrne,
            List.cons_append]
          simp only [List.headI_cons, List.tail_cons]

/-- State of the frontend stream-consuming loop: text increments yielded so
far, the buffered trailing segment, and whether the generator has returned
(the `[DONE]` early exit). -/
structure NormState where
  acc : List Str
  buf : Str
  done : Bool
deriving DecidableEq, Repr

/-- The body of the frontend per-line loop (api.ts), acting on the yielded
increments and the returned flag.  `extract` models
`JSON.parse(data).choices?.[0]?.delta?.content` — `some c` when the payload
parses and the field path yields the string `c`, `none` when `JSON.parse`
throws or the path is absent; the `if (content)` truthiness test makes an
empty string yield nothing. -/
def apiHandleLine (extract : Str → Option Str) :
    List Str × Bool → Str → List Str × Bool
  | (acc, d), line =>
    if d then (acc, d)
    else if ": OPENROUTER".data.isPrefixOf line then (acc, d)
    else if "data: ".data.isPrefixOf line then
      let data := line.drop 6
      if data = "[DONE]".data then (acc, true)
      else
        match extract data with
        | some content => if content ≠ [] then (acc ++ [content], d) else (acc, d)
        | none => (acc, d)
    else (acc, d)

/-- One iteration of the frontend `while (true)` read loop on a decoded
chunk: append to the buffer, split on newline, pop the trailing segment
back into the buffer, process the complete lines.  When the generator has
already returned no further reads happen. -/
def apiChunkStep (extract : Str → Option Str) (st : NormState) (chunk : Str) :
    NormState :=
  if st.done then st
  else
    let parts := splitLines (st.buf ++ chunk)
    let res := parts.dropLast.foldl (apiHandleLine extract) (st.acc, false)
    { acc := res.1, buf := parts.getLast?.getD [], done := res.2 }

/-- The sequence of text increments the frontend normalizer yields on a
given sequence of decoded read chunks. -/
def apiYields (extract : Str → Option Str) (chunks : List Str) : List Str :=
  (chunks.foldl (apiChunkStep extract) ⟨[], [], false⟩).acc

/-- Whitespace in the model of JS `trim`. -/
def isWS (c : Char) : Bool := c = ' ' ∨ c = '\t' ∨ c = '\r' ∨ c = '\n'

/-- JS `line.trim()`. -/
def jsTrim (l : Str) : Str :=
  ((l.dropWhile isWS).reverse.dropWhile isWS).reverse

/-- The body of the featherless adapter's per-line loop
(featherless.ts chatStream): an empty line or the literal `data: [DONE]`
line is skipped with `continue` (it does not terminate the iteration); a
non-`data:` line is skipped; otherwise the payload is parsed and the
parsed record's delta content is yielded.  `extract` models the
`JSON.parse` + field access as for the frontend loop. -/
def flHandleLine (extract : Str → Option Str) (acc : List Str) (line : Str) :
    List Str :=
  let trimmed := jsTrim line
  if trimmed = [] ∨ trimmed = "data: [DONE]".data then acc
  else if ¬("data: ".data.isPrefixOf trimmed) then acc
  else
    match extract (trimmed.drop 6) with
    | some content => acc ++ [content]
    | none => acc

/-- State of the featherless stream loop: yields so far and the buffer. -/
structure FlState where
  acc : List Str
  buf : Str
deriving DecidableEq, Repr

/-- One iteration of the featherless read loop on a decoded chunk. -/
def flChunkStep (extract : Str → Option Str) (st : FlState) (chunk : Str) :
    FlState :=
  let parts := splitLines (st.buf ++ chunk)
  { acc := parts.dropLast.foldl (flHandleLine extract) st.acc,
    buf := parts.getLast?.getD [] }

/-- The text increments the featherless adapter's normalizer yields on a
given sequence of decoded read chunks. -/
def flYields (extract : Str → Option Str) (chunks : List Str) : List Str :=
  (chunks.foldl (flChunkStep extract) ⟨[], []⟩).acc

theorem splitLines_no_newline {l : Str} (h : '\n' ∉ l) : splitLines l = [l] := by
  induction l with
  | nil => rfl
  | cons c t ih =>
    have hc : c ≠ '\n' := fun hc => h (hc ▸ List.mem_cons_self c t)
    have ht : '\n' ∉ t := fun ht => h (List.mem_cons_of_mem c ht)
    simp only [splitLines, if_neg hc, ih ht, List.headI_cons, List.tail_cons]

theorem mem_splitLines_no_newline : ∀ l : Str, ∀ p ∈ splitLines l, '\n' ∉ p := by
  intro l
  induction l with
  | nil =>
    intro p hp
    simp only [splitLines, List.mem_singleton] at hp
    simp [hp]
  | cons c t ih =>
    intro p hp
    by_cases hc : c = '\n'
    · subst hc
      simp only [splitLines, if_true, List.mem_cons] at hp
      rcases hp with h | h
      · simp [h]
      · exact ih p h
    · simp only [splitLines, if_neg hc, List.mem_cons] at hp
      rcases hp with h | h
      · subst h
        intro hmem
        rcases List.mem_cons.1 hmem with h' | h'
        · exact hc h'.symm
        · cases hL : splitLines t with
          | nil => exact absurd hL (splitLines_ne_nil t)
          | cons q r =>
            rw [hL] at h'
            exact ih q (hL ▸ List.mem_cons_self q r) h'
      · cases hL : splitLines t with
        | nil => exact absurd hL (splitLines_ne_nil t)
        | cons q r =>
          rw [hL] at h
          exact ih p (hL ▸ List.mem_cons_of_mem q h)

theorem lastPart_no_newline (l : Str) : '\n' ∉ (splitLines l).getLast?.getD [] := by
  cases hg : (splitLines l).getLast? with
  | none => simp
  | some p =>
    simp only [Option.getD_some]
    exact mem_splitLines_no_newline l p (List.mem_of_mem_getLast? hg)

theorem apiHandleLine_absorb (e : Str → Option Str) :
    ∀ (ls : List Str) (x : List Str),
      ls.foldl (apiHandleLine e) (x, true) = (x, true) := by
  intro ls
  induction ls with
  | nil => intro x; rfl
  | cons l t ih =>
    intro x
    show List.foldl (apiHandleLine e) (apiHandleLine e (x, true) l) t = (x, true)
    have h1 : apiHandleLine e (x, true) l = (x, true) := rfl
    rw [h1, ih]

/-- Observational equivalence of frontend loop states: same yields, same
returned flag, and (when the generator has not returned) the same buffer. -/
def obsEq (st st' : NormState) : Prop :=
  st.acc = st'.acc ∧ st.done = st'.done ∧ (st.done = false → st.buf = st'.buf)

theorem obsEq_refl (st : NormState) : obsEq st st := ⟨rfl, rfl, fun _ => rfl⟩

theorem obsEq_symm {st st' : NormState} (h : obsEq st st') : obsEq st' st :=
  ⟨h.1.symm, h.2.1.symm, fun hd => (h.2.2 (h.2.1 ▸ hd)).symm⟩

theorem obsEq_trans {s1 s2 s3 : NormState} (h : obsEq s1 s2) (h' : obsEq s2 s3) :
    obsEq s1 s3 :=
  ⟨h.1.trans h'.1, h.2.1.trans h'.2.1,
    fun hd => (h.2.2 hd).trans (h'.2.2 (h.2.1 ▸ hd))⟩

theorem apiChunkStep_done {e : Str → Option Str} {st : NormState}
    (hd : st.done = true) (c : Str) : apiChunkStep e st c = st := by
  unfold apiChunkStep
  rw [if_pos hd]

theorem apiChunkStep_notdone {e : Str → Option Str} {st : NormState}
    (hd : st.done = false) (c : Str) :
    apiChunkStep e st c =
      { acc := ((splitLines (st.buf ++ c)).dropLast.foldl (apiHandleLine e) (st.acc, false)).1,
        buf := (splitLines (st.buf ++ c)).getLast?.getD [],
        done := ((splitLines (st.buf ++ c)).dropLast.foldl (apiHandleLine e) (st.acc, false)).2 } := by
  unfold apiChunkStep
  rw [if_neg (by simp [hd])]

/-- The step `apiChunkStep` is a congruence for observational equivalence. -/
theorem apiChunkStep_congr (e : Str → Option Str) {st st' : NormState}
    (h : obsEq st st') (c : Str) :
    obsEq (apiChunkStep e st c) (apiChunkStep e st' c) := by
  obtain ⟨hacc, hdone, hbuf⟩ := h
  by_cases hd : st.done = true
  · rw [apiChunkStep_done hd, apiChunkStep_done (hdone ▸ hd)]
    exact ⟨hacc, hdone, hbuf⟩
  · have hdf : st.done = false := by
      cases hsd : st.done
      · rfl
      · exact absurd hsd hd
    have hdf' : st'.done = false := hdone ▸ hdf
    rw [apiChunkStep_notdone hdf, apiChunkStep_notdone hdf', hacc, hbuf hdf]
    exact obsEq_refl _

/-- Merging two consecutive read chunks does not change the observable
state: the per-chunk line assembly is associative over concatenation. -/
theorem apiChunkStep_append (e : Str → Option Str) (st : NormState) (a b : Str) :
    obsEq (apiChunkStep e st (a ++ b)) (apiChunkStep e (apiChunkStep e st a) b) := by
  by_cases hd : st.done = true
  · rw [apiChunkStep_done hd, apiChunkStep_done hd, apiChunkStep_done hd]
    exact obsEq_refl st
  · have hdf : st.done = false := by
      cases hsd : st.done
      · rfl
      · exact absurd hsd hd
    have hQne := splitLines_ne_nil (((splitLines (st.buf ++ a)).getLast?.getD []) ++ b)
    have hsplit := splitLines_append (st.buf ++ a) b
    rw [List.append_assoc] at hsplit
    set P := splitLines (st.buf ++ a) with hP
    set Q := splitLines ((P.getLast?.getD []) ++ b) with hQ
    set r1 := P.dropLast.foldl (apiHandleLine e) (st.acc, false) with hr1
    have hlines : (splitLines (st.buf ++ (a ++ b))).dropLast = P.dropLast ++ Q.dropLast := by
      rw [hsplit, List.dropLast_append_of_ne_nil _ hQne]
    have hlast : (splitLines (st.buf ++ (a ++ b))).getLast?.getD [] = Q.getLast?.getD [] := by
      rw [hsplit, List.getLast?_append_of_ne_nil _ hQne]
    have hstepa := apiChunkStep_notdone (e := e) hdf a
    rw [← hP, ← hr1] at hstepa
    cases hr1d : r1.2 with
    | true =>
      have hr1e : r1 = (r1.1, true) := by rw [← hr1d]
      have hfold : (splitLines (st.buf ++ (a ++ b))).dropLast.foldl
          (apiHandleLine e) (st.acc, false) = (r1.1, true) := by
        rw [hlines, List.foldl_append, ← hr1, hr1e, apiHandleLine_absorb]
      have h2 : apiChunkStep e (apiChunkStep e st a) b = apiChunkStep e st a := by
        rw [hstepa]
        exact apiChunkStep_done (by exact hr1d) b
      rw [apiChunkStep_notdone hdf (a ++ b), h2, hstepa]
      refine ⟨?_, ?_, ?_⟩
      · rw [hfold]
      · rw [hfold, hr1d]
      · intro hfalse
        rw [hfold] at hfalse
        cases hfalse
    | false =>
      have hstepb : apiChunkStep e (apiChunkStep e st a) b =
          { acc := (Q.dropLast.foldl (apiHandleLine e) (r1.1, false)).1,
            buf := Q.getLast?.getD [],
            done := (Q.dropLast.foldl (apiHandleLine e) (r1.1, false)).2 } := by
        rw [hstepa]
        rw [apiChunkStep_notdone (by exact hr1d) b]
      have hr1e : r1 = (r1.1, false) := by rw [← hr1d]
      have hfold : (splitLines (st.buf ++ (a ++ b))).dropLast.foldl
          (apiHandleLine e) (st.acc, false) =
          Q.dropLast.foldl (apiHandleLine e) (r1.1, false) := by
        rw [hlines, List.foldl_append, ← hr1, hr1e]
      rw [apiChunkStep_notdone hdf (a ++ b), hstepb, hfold, hlast]
      exact obsEq_refl _

/-- Buffer invariant of the frontend loop: while the generator has not
returned, the buffer is a trailing segment and holds no newline. -/
def bufInv (st : NormState) : Prop := st.done = false → '\n' ∉ st.buf

theorem apiChunkStep_bufInv (e : Str → Option Str) (st : NormState)
    (hinv : bufInv st) (c : Str) : bufInv (apiChunkStep e st c) := by
  by_cases hd : st.done = true
  · rw [apiChunkStep_done hd]
    exact hinv
  · have hdf : st.done = false := by
      cases hsd : st.done
      · rfl
      · exact absurd hsd hd
    rw [apiChunkStep_notdone hdf]
    intro _
    exact lastPart_no_newline (st.buf ++ c)

/-- An empty read chunk leaves the loop state unchanged. -/
theorem apiChunkStep_nil (e : Str → Option Str) (st : NormState)
    (hinv : bufInv st) : apiChunkStep e st [] = st := by
  by_cases hd : st.done = true
  · exact apiChunkStep_done hd []
  · have hdf : st.done = false := by
      cases hsd : st.done
      · rfl
      · exact absurd hsd hd
    rw [apiChunkStep_notdone hdf]
    rw [List.append_nil, splitLines_no_newline (hinv hdf)]
    obtain ⟨acc, buf, done⟩ := st
    simp only at hdf
    subst hdf
    rfl

/-- Folding the per-chunk step over a chunk list is observationally the
same as processing the whole concatenated payload in one chunk. -/
theorem foldl_chunkStep_flatten (e : Str → Option Str) :
    ∀ (cs : List Str) (st : NormState), bufInv st →
      obsEq (cs.foldl (apiChunkStep e) st) (apiChunkStep e st cs.flatten) := by
  intro cs
  induction cs with
  | nil =>
    intro st hinv
    show obsEq st (apiChunkStep e st [])
    rw [apiChunkStep_nil e st hinv]
    exact obsEq_refl st
  | cons c cs ih =>
    intro st hinv
    show obsEq ((cs.foldl (apiChunkStep e)) (apiChunkStep e st c)) _
    have h1 := ih (apiChunkStep e st c) (apiChunkStep_bufInv e st hinv c)
    have h2 := apiChunkStep_append e st c cs.flatten
    rw [List.flatten_cons]
    exact obsEq_trans h1 (obsEq_symm h2)

/-- C5 — the frontend stream normalizer is invariant under read-chunk
boundaries: two chunk sequences carrying the same byte payload yield the
identical sequence of text increments; a trailing segment without its
newline is buffered, never parsed. -/
theorem stream_chunking_invariant (e : Str → Option Str) (cs cs' : List Str)
    (h : cs.flatten = cs'.flatten) : apiYields e cs = apiYields e cs' := by
  have hinv : bufInv ⟨[], [], false⟩ := by intro _; simp
  have h1 := foldl_chunkStep_flatten e cs ⟨[], [], false⟩ hinv
  have h2 := foldl_chunkStep_flatten e cs' ⟨[], [], false⟩ hinv
  rw [h] at h1
  exact h1.1.trans h2.1.symm

/-- Extraction oracle used by the stream witnesses: the single payload
"payload" parses to the increment "hi". -/
def ePayload : Str → Option Str :=
  fun s => if s = "payload".data then some "hi".data else none

/-- Witness for `stream_chunking_invariant`: the same SSE bytes split at an
arbitrary mid-line boundary yield the same increments, here ["hi"]. -/
theorem stream_chunking_invariant_witness :
    (["data: pay".data, "load\n".data] : List Str).flatten =
      (["data: payload\n".data] : List Str).flatten ∧
    apiYields ePayload ["data: pay".data, "load\n".data] =
      apiYields ePayload ["data: payload\n".data] ∧
    apiYields ePayload ["data: payload\n".data] = ["hi".data] :=
  ⟨by decide,
    stream_chunking_invariant ePayload _ _ (by decide),
    by decide⟩

-- ============================================
-- C4: the [DONE] sentinel
-- ============================================

theorem splitLines_append_newline : ∀ (x y : Str), '\n' ∉ x →
    splitLines (x ++ '\n' :: y) = x :: splitLines y := by
  intro x
  induction x with
  | nil => intro y _; simp [splitLines]
  | cons c t ih =>
    intro y hx
    have hc : c ≠ '\n' := fun hc => hx (hc ▸ List.mem_cons_self c t)
    have ht : '\n' ∉ t := fun ht => hx (List.mem_cons_of_mem c ht)
    rw [List.cons_append]
    simp only [splitLines, if_neg hc, ih y ht, List.headI_cons, List.tail_cons]

/-- Once the `data: [DONE]` line is reached as a complete line, the yields
no longer depend on what follows. -/
theorem apiHandleLine_done_cut (e : Str → Option Str) (ls rest rest' : List Str)
    (x : List Str) :
    ((ls ++ "data: [DONE]".data :: rest).foldl (apiHandleLine e) (x, false)).1 =
      ((ls ++ "data: [DONE]".data :: rest').foldl (apiHandleLine e) (x, false)).1 := by
  rw [List.foldl_append, List.foldl_append]
  set r := ls.foldl (apiHandleLine e) (x, false) with hr
  cases hrd : r.2 with
  | true =>
    have hre : r = (r.1, true) := by rw [← hrd]
    rw [hre]
    show ((("data: [DONE]".data :: rest).foldl (apiHandleLine e) (r.1, true))).1 =
      ((("data: [DONE]".data :: rest').foldl (apiHandleLine e) (r.1, true))).1
    rw [apiHandleLine_absorb, apiHandleLine_absorb]
  | false =>
    have hre : r = (r.1, false) := by rw [← hrd]
    rw [hre]
    show (List.foldl (apiHandleLine e) (apiHandleLine e (r.1, false) ("data: [DONE]".data)) rest).1 =
      (List.foldl (apiHandleLine e) (apiHandleLine e (r.1, false) ("data: [DONE]".data)) rest').1
    have hdone : apiHandleLine e (r.1, false) ("data: [DONE]".data) = (r.1, true) := rfl
    rw [hdone, apiHandleLine_absorb, apiHandleLine_absorb]

/-- Yields of the frontend normalizer on a single-chunk payload. -/
theorem apiYields_single (e : Str → Option Str) (s : Str) :
    apiYields e [s] = ((splitLines s).dropLast.foldl (apiHandleLine e) ([], false)).1 := by
  show (apiChunkStep e ⟨[], [], false⟩ s).acc = _
  rw [apiChunkStep_notdone rfl]
  rfl

/-- Decomposing the line structure around a complete `data: [DONE]\n` frame
when the prefix consists of complete lines. -/
theorem splitLines_done_decomp (pre p2 : Str)
    (hpre : pre = [] ∨ ∃ q, pre = q ++ ['\n']) :
    splitLines (pre ++ "data: [DONE]\n".data ++ p2) =
      (splitLines pre).dropLast ++ ("data: [DONE]".data :: splitLines p2) := by
  have hdm : ("data: [DONE]\n".data : Str) ++ p2 = "data: [DONE]".data ++ '\n' :: p2 := rfl
  have hlast : (splitLines pre).getLast?.getD [] = [] := by
    rcases hpre with h | ⟨q, h⟩
    · subst h; rfl
    · subst h
      rw [splitLines_append q ['\n']]
      have hq := lastPart_no_newline q
      have h1 := splitLines_append_newline ((splitLines q).getLast?.getD []) [] hq
      rw [h1]
      rw [List.getLast?_append_of_ne_nil _ (by simp),
        getLast?_cons_ne_nil _ _ (splitLines_ne_nil [])]
      rfl
  rw [List.append_assoc, hdm, splitLines_append pre _, hlast, List.nil_append,
    splitLines_append_newline _ p2 (by decide)]

/-- C4 amended — the frontend normalizer ends at a complete
`data: [DONE]` line: whatever follows it, even complete data lines in the
same read chunk, contributes no further increments; the featherless
adapter's normalizer instead merely skips the `[DONE]` line (its state is
unchanged and unterminated) and keeps yielding from subsequent lines. -/
theorem api_done_terminal_fl_skips (e : Str → Option Str) (pre p2 p2' : Str)
    (hpre : pre = [] ∨ ∃ q, pre = q ++ ['\n']) :
    apiYields e [pre ++ "data: [DONE]\n".data ++ p2] =
      apiYields e [pre ++ "data: [DONE]\n".data ++ p2'] ∧
    ∀ acc, flHandleLine e acc "data: [DONE]".data = acc := by
  constructor
  · rw [apiYields_single, apiYields_single, splitLines_done_decomp pre p2 hpre,
      splitLines_done_decomp pre p2' hpre,
      List.dropLast_append_of_ne_nil _ (by simp),
      List.dropLast_append_of_ne_nil _ (by simp),
      List.dropLast_cons_of_ne_nil (splitLines_ne_nil p2),
      List.dropLast_cons_of_ne_nil (splitLines_ne_nil p2')]
    exact apiHandleLine_done_cut e _ _ _ []
  · intro acc
    rfl

/-- Extraction oracle for the C4 concrete runs: payload "X" parses with
delta content "X". -/
def eX : Str → Option Str :=
  fun s => if s = "X".data then some "X".data else none

/-- C4 counterexample — in the featherless adapter's normalizer a
complete `data: [DONE]` line does not end the sequence: a complete data
line after it, in the same read chunk, still yields an increment.  (The
second conjunct exhibits the line structure: the `[DONE]` frame precedes
the data frame.) -/
theorem fl_stream_yields_after_done :
    flYields eX ["data: [DONE]\ndata: X\n".data] = ["X".data] ∧
    splitLines "data: [DONE]\ndata: X\n".data =
      ["data: [DONE]".data, "data: X".data, []] := by
  constructor
  · rfl
  · rfl

/-- Witness for `api_done_terminal_fl_skips` at concrete inputs: the
frontend normalizer yields nothing after the sentinel even though a
well-formed data line follows in the same chunk. -/
theorem api_done_terminal_fl_skips_witness :
    (apiYields eX ["data: [DONE]\ndata: X\n".data] =
      apiYields eX ["data: [DONE]\n".data] ∧
    ∀ acc, flHandleLine eX acc "data: [DONE]".data = acc) ∧
    apiYields eX ["data: [DONE]\ndata: X\n".data] = [] :=
  ⟨by
    have h := api_done_terminal_fl_skips eX [] "data: X\n".data [] (Or.inl rfl)
    exact ⟨h.1, h.2⟩,
    by rfl⟩

-- ============================================
-- C6: streaming with a missing body
-- (src/unnamed/part_001 chat route; frontend/src/lib/api.ts chatStream)
-- ============================================

/-- Outcome of the backend chat route after `fetchWithRetry` returns. -/
inductive RouteOutcome
  | errorJson (status : Nat)
  | streamed
  | jsonBody
deriving DecidableEq, Repr

/-- The backend proxy route's response handling
(`app.post('/api/:provider/chat/completions')`): a non-ok response is
forwarded as an error; an ok response is piped as a stream only when the
request declared streaming AND a body is present; otherwise it is decoded
as JSON. -/
def routeChatOutcome (isStreaming : Bool) (ok : Bool) (status : Nat)
    (hasBody : Bool) : RouteOutcome :=
  if ¬ok then .errorJson status
  else if isStreaming ∧ hasBody then .streamed
  else .jsonBody

/-- Outcome of the frontend `chatStream` prologue before reading. -/
inductive ClientStart
  | errHttp
  | errNoBody
  | stream
deriving DecidableEq, Repr

/-- The frontend client's checks (api.ts chatStream): throw on a non-ok
response; throw 'No response body' when the body is missing; else stream. -/
def chatStreamStart (ok : Bool) (hasBody : Bool) : ClientStart :=
  if ¬ok then .errHttp
  else if ¬hasBody then .errNoBody
  else .stream

/-- C6 counterexample — on the backend route a declared-streaming call
whose ok upstream response carries no body is handled by the non-streaming
JSON-decode path, not failed with an EmptyStream error. -/
theorem route_streams_missing_body_as_json :
    routeChatOutcome true true 200 false = RouteOutcome.jsonBody ∧
    RouteOutcome.jsonBody ≠ RouteOutcome.errorJson 200 ∧
    RouteOutcome.jsonBody ≠ RouteOutcome.streamed := by
  refine ⟨rfl, by decide, by decide⟩

/-- C6 amended — the frontend stream client fails a body-less streaming
response with its 'No response body' error, but the backend proxy route
falls back to decoding a body-less ok response as non-streaming JSON. -/
theorem empty_stream_handling_amended (status : Nat) :
    chatStreamStart true false = ClientStart.errNoBody ∧
    routeChatOutcome true true status false = RouteOutcome.jsonBody :=
  ⟨rfl, rfl⟩

-- ============================================
-- C7: failover orchestrator
-- (src/unnamed/part_001, app.post('/api/failover/chat/completions'))
-- ============================================

/-- One entry of a failover chain. -/
structure FailoverEntry where
  provider : Str
  model : Str
deriving DecidableEq, Repr

/-- The static `FAILOVER_CHAINS` table of the source. -/
def FAILOVER_CHAINS : List (Str × List FailoverEntry) :=
  [("gpt-4-class".data,
     [⟨"openrouter".data, "openai/gpt-4o".data⟩,
      ⟨"together".data, "meta-llama/Llama-3.3-70B-Instruct-Turbo".data⟩]),
   ("claude-class".data,
     [⟨"openrouter".data, "anthropic/claude-3-sonnet".data⟩,
      ⟨"venice".data, "qwen3-235b".data⟩]),
   ("llama-70b-class".data,
     [⟨"together".data, "meta-llama/Llama-3.3-70B-Instruct-Turbo".data⟩,
      ⟨"featherless".data, "meta-llama/Meta-Llama-3.1-70B-Instruct".data⟩,
      ⟨"openrouter".data, "meta-llama/llama-3.1-70b-instruct".data⟩])]

/-- Lookup of `FAILOVER_CHAINS` at a model class. -/
def chainLookup (modelClass : Str) : Option (List FailoverEntry) :=
  (FAILOVER_CHAINS.find? (fun p => p.1 = modelClass)).map (·.2)

/-- The providers of the static `PROVIDERS` table (the `if (!config)`
skip). -/
def providerKnown (p : Str) : Bool :=
  p = "openrouter".data ∨ p = "huggingface".data ∨ p = "featherless".data ∨
    p = "venice".data ∨ p = "together".data

/-- The dispatcher outcome the failover loop observes for one entry. -/
inductive DispatchOutcome
  | ok
  | notOk
  | threw
deriving DecidableEq, Repr

/-- Result of the failover route. -/
inductive FailoverResult
  | unknownClass
  | served (provider model : Str)
  | allFailed (message : Str)
deriving DecidableEq, Repr

/-- The constant failure message of the source's failover route. -/
def FAILOVER_FAIL_MSG : Str := "All providers in failover chain failed".data

/-- The failover loop: walk the chain in order; skip entries whose provider
is unknown or whose credential variable is unset; dispatch otherwise and
return the first ok response tagged with its provider and model; after the
chain is exhausted respond 503 with the fixed message.  `creds p` models
`!!process.env[envKey]`; `outcome i` the dispatch result of chain
position `i`. -/
def failoverGo (creds : Str → Bool) (outcome : Nat → DispatchOutcome) :
    List FailoverEntry → Nat → FailoverResult
  | [], _ => .allFailed FAILOVER_FAIL_MSG
  | e :: rest, i =>
    if ¬providerKnown e.provider then failoverGo creds outcome rest (i + 1)
    else if ¬creds e.provider then failoverGo creds outcome rest (i + 1)
    else
      match outcome i with
      | .ok => .served e.provider e.model
      | .notOk => failoverGo creds outcome rest (i + 1)
      | .threw => failoverGo creds outcome rest (i + 1)

/-- The failover route (`app.post('/api/failover/chat/completions')`). -/
def failoverRun (creds : Str → Bool) (outcome : Nat → DispatchOutcome)
    (modelClass : Str) : FailoverResult :=
  match chainLookup modelClass with
  | none => .unknownClass
  | some chain => failoverGo creds outcome chain 0

/-- The failover loop reports the fixed exhaustion failure exactly when
every chain entry from the current position on is skipped (unknown provider
or missing credentials) or fails its dispatch. -/
theorem failoverGo_allFailed_iff (creds : Str → Bool)
    (outcome : Nat → DispatchOutcome) :
    ∀ (chain : List FailoverEntry) (i : Nat),
      failoverGo creds outcome chain i = .allFailed FAILOVER_FAIL_MSG ↔
        ∀ j e, chain[j]? = some e →
          ¬(providerKnown e.provider = true ∧ creds e.provider = true ∧
            outcome (i + j) = DispatchOutcome.ok) := by
  intro chain
  induction chain with
  | nil =>
    intro i
    simp [failoverGo]
  | cons e rest ih =>
    intro i
    have cons_iff :
        ¬(providerKnown e.provider = true ∧ creds e.provider = true ∧
            outcome i = DispatchOutcome.ok) →
        ((∀ j e', rest[j]? = some e' →
            ¬(providerKnown e'.provider = true ∧ creds e'.provider = true ∧
              outcome (i + 1 + j) = DispatchOutcome.ok)) ↔
          (∀ j e', (e :: rest)[j]? = some e' →
            ¬(providerKnown e'.provider = true ∧ creds e'.provider = true ∧
              outcome (i + j) = DispatchOutcome.ok))) := by
      intro hPe
      constructor
      · intro h j e' hj
        cases j with
        | zero =>
          rw [List.getElem?_cons_zero] at hj
          cases hj
          simpa using hPe
        | succ j =>
          rw [List.getElem?_cons_succ] at hj
          have := h j e' hj
          rwa [show i + 1 + j = i + (j + 1) from by omega] at this
      · intro h j e' hj
        have := h (j + 1) e' (by rwa [List.getElem?_cons_succ])
        rwa [show i + (j + 1) = i + 1 + j from by omega] at this
    simp only [failoverGo]
    by_cases hk : providerKnown e.provider = true
    · rw [if_neg (fun hn => hn hk)]
      by_cases hcr : creds e.provider = true
      · rw [if_neg (fun hn => hn hcr)]
        cases ho : outcome i with
        | ok =>
          constructor
          · intro hserved
            exact FailoverResult.noConfusion hserved
          · intro h
            have hP : providerKnown e.provider = true ∧ creds e.provider = true ∧
                outcome (i + 0) = DispatchOutcome.ok := ⟨hk, hcr, ho⟩
            exact absurd hP (h 0 e (by rw [List.getElem?_cons_zero]))
        | notOk =>
          rw [ih (i + 1)]
          exact cons_iff (by rintro ⟨-, -, h⟩; rw [ho] at h; cases h)
        | threw =>
          rw [ih (i + 1)]
          exact cons_iff (by rintro ⟨-, -, h⟩; rw [ho] at h; cases h)
      · rw [if_pos hcr]
        rw [ih (i + 1)]
        exact cons_iff (by rintro ⟨-, h, -⟩; exact hcr h)
    · rw [if_pos hk]
      rw [ih (i + 1)]
      exact cons_iff (by rintro ⟨h, -, -⟩; exact hk h)

/-- Any exhaustion failure of the failover loop carries the one fixed
message, independent of the chain. -/
theorem failoverGo_allFailed_msg (creds : Str → Bool)
    (outcome : Nat → DispatchOutcome) :
    ∀ (chain : List FailoverEntry) (i : Nat) (m : Str),
      failoverGo creds outcome chain i = .allFailed m → m = FAILOVER_FAIL_MSG := by
  intro chain
  induction chain with
  | nil =>
    intro i m hm
    cases hm
    rfl
  | cons e rest ih =>
    intro i m hm
    simp only [failoverGo] at hm
    by_cases hk : providerKnown e.provider = true
    · rw [if_neg (fun hn => hn hk)] at hm
      by_cases hcr : creds e.provider = true
      · rw [if_neg (fun hn => hn hcr)] at hm
        cases ho : outcome i with
        | ok =>
          rw [ho] at hm
          exact FailoverResult.noConfusion hm
        | notOk =>
          rw [ho] at hm
          exact ih (i + 1) m hm
        | threw =>
          rw [ho] at hm
          exact ih (i + 1) m hm
      · rw [if_pos hcr] at hm
        exact ih (i + 1) m hm
    · rw [if_pos hk] at hm
      exact ih (i + 1) m hm

/-- C7 amended — the failover route responds with its failure only
after every entry of the looked-up chain has been skipped (unknown or
uncredentialed provider) or has failed its dispatch; that failure carries
the fixed message 'All providers in failover chain failed', which reports
exhaustion of the whole chain but does not enumerate which chain. -/
theorem failover_exhaustion_amended (creds : Str → Bool)
    (outcome : Nat → DispatchOutcome) (mc : Str) (chain : List FailoverEntry)
    (hc : chainLookup mc = some chain) :
    (failoverRun creds outcome mc = .allFailed FAILOVER_FAIL_MSG ↔
      ∀ j e, chain[j]? = some e →
        ¬(providerKnown e.provider = true ∧ creds e.provider = true ∧
          outcome j = DispatchOutcome.ok)) ∧
    ∀ m, failoverRun creds outcome mc = .allFailed m → m = FAILOVER_FAIL_MSG := by
  constructor
  · unfold failoverRun
    rw [hc]
    have h := failoverGo_allFailed_iff creds outcome chain 0
    simpa using h
  · intro m hm
    unfold failoverRun at hm
    rw [hc] at hm
    exact failoverGo_allFailed_msg creds outcome chain 0 m hm

/-- C7 counterexample — two different exhausted chains produce the
byte-for-byte identical failure, so the failure cannot be enumerating (or
even naming) which chain was exhausted. -/
theorem failover_error_not_chain_specific :
    failoverRun (fun _ => false) (fun _ => DispatchOutcome.ok) "gpt-4-class".data =
      FailoverResult.allFailed FAILOVER_FAIL_MSG ∧
    failoverRun (fun _ => false) (fun _ => DispatchOutcome.ok) "claude-class".data =
      FailoverResult.allFailed FAILOVER_FAIL_MSG ∧
    chainLookup "gpt-4-class".data ≠ chainLookup "claude-class".data := by
  refine ⟨rfl, rfl, by decide⟩

/-- Witness for `failover_exhaustion_amended`: the gpt-4-class chain with
no credentials configured is fully skipped, and the exhaustion
characterization holds there. -/
theorem failover_exhaustion_amended_witness :
    (failoverRun (fun _ => false) (fun _ => DispatchOutcome.ok) "gpt-4-class".data =
        .allFailed FAILOVER_FAIL_MSG ↔
      ∀ (j : Nat) (e : FailoverEntry),
        ((chainLookup "gpt-4-class".data).getD [])[j]? = some e →
        ¬(providerKnown e.provider = true ∧ (fun _ => false) e.provider = true ∧
          (fun _ => DispatchOutcome.ok) j = DispatchOutcome.ok)) ∧
    ∀ m, failoverRun (fun _ => false) (fun _ => DispatchOutcome.ok) "gpt-4-class".data =
        .allFailed m → m = FAILOVER_FAIL_MSG :=
  failover_exhaustion_amended (fun _ => false) (fun _ => DispatchOutcome.ok)
    "gpt-4-class".data ((chainLookup "gpt-4-class".data).getD []) (by decide)

-- ============================================
-- C8: rate-limit tracker (src/unnamed/part_001, parseRateLimitHeaders)
-- ============================================

/-- HTTP headers as name/value pairs. -/
abbrev HeaderList := List (Str × Str)

/-- Model of `Headers.get(name)`: case-insensitive lookup (per the Fetch API). -/
def headerGet (hs : HeaderList) (name : Str) : Option Str :=
  (hs.find? (fun p => lowerStr p.1 = lowerStr name)).map (·.2)

/-- JS truthiness of `Headers.get`'s result: a present, non-empty string. -/
def headerTruthy (o : Option Str) : Bool :=
  match o with
  | some s => ¬s.isEmpty
  | none => false

/-- A provider's recorded rate-limit snapshot: `parseInt`ed limit and
remaining, and the reset time in ms. -/
structure RateLimitInfo where
  limit : Nat
  remaining : Nat
  reset : Nat
deriving DecidableEq, Repr

/-- JS `Map.set`: overwrite the entry for the key or append it. -/
def mapSet : List (Str × RateLimitInfo) → Str → RateLimitInfo →
    List (Str × RateLimitInfo)
  | [], k, v => [(k, v)]
  | (k', v') :: t, k, v =>
    if k' = k then (k, v) :: t else (k', v') :: mapSet t k v

/-- JS `Map.get`. -/
def mapGet (m : List (Str × RateLimitInfo)) (k : Str) : Option RateLimitInfo :=
  (m.find? (fun p => p.1 = k)).map (·.2)

/-- The `limit` header value read by `parseRateLimitHeaders`. -/
def rlLimit (hs : HeaderList) : Option Str :=
  (headerGet hs "x-ratelimit-limit".data).or (headerGet hs "X-RateLimit-Limit".data)

/-- The `remaining` header value read by `parseRateLimitHeaders`. -/
def rlRemaining (hs : HeaderList) : Option Str :=
  (headerGet hs "x-ratelimit-remaining".data).or
    (headerGet hs "X-RateLimit-Remaining".data)

/-- The `reset` header value read by `parseRateLimitHeaders`. -/
def rlReset (hs : HeaderList) : Option Str :=
  (headerGet hs "x-ratelimit-reset".data).or (headerGet hs "X-RateLimit-Reset".data)

/-- The tracker `parseRateLimitHeaders(headers, provider)` acting on the `rateLimits`
map; `now` models `Date.now()`.  When both the limit and the remaining
headers are (truthily) present the provider's snapshot is overwritten;
otherwise the map is left untouched. -/
def parseRateLimitHeaders (hs : HeaderList) (provider : Str) (now : Nat)
    (m : List (Str × RateLimitInfo)) : List (Str × RateLimitInfo) :=
  let limit := rlLimit hs
  let remaining := rlRemaining hs
  let reset := rlReset hs
  if headerTruthy limit ∧ headerTruthy remaining then
    mapSet m provider
      { limit := jsParseInt (limit.getD [])
        remaining := jsParseInt (remaining.getD [])
        reset := if headerTruthy reset then jsParseInt (reset.getD []) * 1000
                 else now + 60000 }
  else m

theorem mapGet_mapSet_same (m : List (Str × RateLimitInfo)) (k : Str)
    (v : RateLimitInfo) : mapGet (mapSet m k v) k = some v := by
  induction m with
  | nil => simp [mapSet, mapGet]
  | cons p t ih =>
    obtain ⟨k', v'⟩ := p
    by_cases hk : k' = k
    · subst hk
      simp [mapSet, mapGet]
    · simp only [mapSet, if_neg hk]
      unfold mapGet
      rw [List.find?_cons_of_neg _ (by simpa using hk)]
      exact ih

theorem mapGet_mapSet_other (m : List (Str × RateLimitInfo)) (k q : Str)
    (v : RateLimitInfo) (hq : q ≠ k) : mapGet (mapSet m k v) q = mapGet m q := by
  induction m with
  | nil =>
    have hkq : k ≠ q := fun h => hq h.symm
    unfold mapSet mapGet
    rw [List.find?_cons_of_neg _ (by simpa using hkq)]
  | cons p t ih =>
    obtain ⟨k', v'⟩ := p
    by_cases hk : k' = k
    · subst hk
      have hkq : k' ≠ q := fun h => hq h.symm
      simp only [mapSet, if_true]
      unfold mapGet
      rw [List.find?_cons_of_neg _ (by simpa using hkq),
        List.find?_cons_of_neg _ (by simpa using hkq)]
    · simp only [mapSet, if_neg hk]
      by_cases hk' : k' = q
      · subst hk'
        unfold mapGet
        rw [List.find?_cons_of_pos _ (by simp), List.find?_cons_of_pos _ (by simp)]
      · unfold mapGet
        rw [List.find?_cons_of_neg _ (by simpa using hk'),
          List.find?_cons_of_neg _ (by simpa using hk')]
        exact ih

/-- C8 — for every provider and response: when both rate-limit headers
are (case-insensitively) present, the provider's snapshot is overwritten
with the values parsed from those headers; otherwise the map is left
exactly as it was; and in either case no other provider's snapshot ever
changes. -/
theorem rate_limit_snapshot_update (hs : HeaderList) (provider : Str)
    (now : Nat) (m : List (Str × RateLimitInfo)) :
    ((headerTruthy (rlLimit hs) = true ∧ headerTruthy (rlRemaining hs) = true) →
      mapGet (parseRateLimitHeaders hs provider now m) provider =
        some { limit := jsParseInt ((rlLimit hs).getD [])
               remaining := jsParseInt ((rlRemaining hs).getD [])
               reset := if headerTruthy (rlReset hs) then
                   jsParseInt ((rlReset hs).getD []) * 1000
                 else now + 60000 }) ∧
    (¬(headerTruthy (rlLimit hs) = true ∧ headerTruthy (rlRemaining hs) = true) →
      parseRateLimitHeaders hs provider now m = m) ∧
    (∀ q, q ≠ provider →
      mapGet (parseRateLimitHeaders hs provider now m) q = mapGet m q) := by
  refine ⟨?_, ?_, ?_⟩
  · intro h
    unfold parseRateLimitHeaders
    rw [if_pos h]
    exact mapGet_mapSet_same m provider _
  · intro h
    unfold parseRateLimitHeaders
    rw [if_neg h]
  · intro q hq
    unfold parseRateLimitHeaders
    by_cases h : headerTruthy (rlLimit hs) = true ∧ headerTruthy (rlRemaining hs) = true
    · rw [if_pos h]
      exact mapGet_mapSet_other m provider q _ hq
    · rw [if_neg h]

/-- Headers for the C8 witness: both rate-limit headers present with mixed
casing. -/
def demoHeaders : HeaderList :=
  [("X-RateLimit-Limit".data, "100".data),
   ("x-ratelimit-remaining".data, "41".data)]

/-- Existing snapshot map for the C8 witness. -/
def demoMap : List (Str × RateLimitInfo) :=
  [("venice".data, ⟨10, 2, 5000⟩)]

/-- Witness for `rate_limit_snapshot_update` at concrete inputs: the
mixed-case headers are found, openrouter's snapshot is written, and
venice's old snapshot is untouched. -/
theorem rate_limit_snapshot_update_witness :
    (headerTruthy (rlLimit demoHeaders) = true ∧
      headerTruthy (rlRemaining demoHeaders) = true) ∧
    mapGet (parseRateLimitHeaders demoHeaders "openrouter".data 7 demoMap)
        "openrouter".data =
      some { limit := jsParseInt ((rlLimit demoHeaders).getD [])
             remaining := jsParseInt ((rlRemaining demoHeaders).getD [])
             reset := if headerTruthy (rlReset demoHeaders) then
                 jsParseInt ((rlReset demoHeaders).getD []) * 1000
               else 7 + 60000 } ∧
    mapGet (parseRateLimitHeaders demoHeaders "openrouter".data 7 demoMap)
        "venice".data = mapGet demoMap "venice".data :=
  ⟨⟨by decide, by decide⟩,
    (rate_limit_snapshot_update demoHeaders "openrouter".data 7 demoMap).1
      ⟨by decide, by decide⟩,
    (rate_limit_snapshot_update demoHeaders "openrouter".data 7 demoMap).2.2
      "venice".data (by decide)⟩

-- ============================================
-- C9: HuggingFace→Featherless model rewrite
-- (src/unnamed/part_001, app.post('/api/huggingface/featherless/...'))
-- ============================================

/-- The fixed routing suffix. -/
def featherlessSuffix : Str := ":featherless-ai".data

/-- The model rewrite of the HuggingFace→Featherless route: append the
suffix only when the identifier does not already contain it. -/
def rewriteModel (model : Str) : Str :=
  if containsSub model featherlessSuffix then model
  else model ++ featherlessSuffix

theorem containsSub_append_suffix : ∀ a b : Str, b ≠ [] →
    containsSub (a ++ b) b = true := by
  intro a
  induction a with
  | nil =>
    intro b hb
    cases b with
    | nil => exact absurd rfl hb
    | cons c t =>
      simp only [List.nil_append, containsSub]
      rw [Bool.or_eq_true]
      left
      exact List.isPrefixOf_iff_prefix.mpr (List.prefix_refl _)
  | cons c t ih =>
    intro b hb
    rw [List.cons_append]
    simp only [containsSub, Bool.or_eq_true]
    right
    exact ih b hb

/-- C9 — the rewrite is idempotent: applying it twice equals applying
it once, and its result always contains the suffix exactly because a
second application never appends again. -/
theorem model_rewrite_idempotent (model : Str) :
    rewriteModel (rewriteModel model) = rewriteModel model ∧
    containsSub (rewriteModel model) featherlessSuffix = true := by
  by_cases h : containsSub model featherlessSuffix = true
  · simp only [rewriteModel, if_pos h]
    exact ⟨trivial, h⟩
  · have h2 : containsSub (model ++ featherlessSuffix) featherlessSuffix = true :=
      containsSub_append_suffix model featherlessSuffix (by decide)
    simp only [rewriteModel, if_neg h, if_pos h2]
    exact ⟨trivial, h2⟩

end AISuite
